import Mathlib

/-!
Verification development for the search component (`src/algorithm.rs`) of the
chess engine.  The file shallowly embeds the data model and the functions of
`algorithm.rs` (`Move`, `MinMax`, `update_min_max`, `update_prune_value`,
`order_moves`, `gen_best_move`) in Lean.  The collaborators that live in other
modules of the crate (`move_generator::new_turn`, `move_generator::gen_piece`,
`move_generator::gen_enemy_attacks`, `TeamBitboards::new`) are abstracted as
fields of an environment structure `Env`, so every theorem below holds for all
possible implementations of those collaborators.  Rust `i8` values are embedded
as `Int` and `u16`/`usize` values as `Nat`; bitboards (`u64`) are embedded as
`Nat` consulted only through bit tests.  A Rust `panic!` (from `unwrap`) is
embedded as the `none` result of an `Option`-valued function.
-/

/-- `board_representation::BoardCoordinates`: a board index (0-11) and a
square bit (0-63). -/
structure BoardCoordinates where
  board_index : Nat
  bit : Nat
deriving DecidableEq, Repr

/-- `algorithm::Move`: initial piece coordinates, destination square bit,
signed evaluation value (`i8`) and heatmap ordering value (`u16`). -/
structure Move where
  initial_piece_coordinates : BoardCoordinates
  final_piece_bit : Nat
  value : Int
  heatmap_value : Nat
deriving DecidableEq, Repr

/-- `Move::new()`: the all-defaults move. -/
def Move.new : Move :=
  { initial_piece_coordinates := { board_index := 0, bit := 0 }
    final_piece_bit := 0
    value := 0
    heatmap_value := 0 }

/-- `algorithm::MinMax`: the running-best accumulator of `gen_best_move`. -/
structure MinMax where
  max_move : Option Move
  min_value : Option Int
deriving DecidableEq, Repr

/-- `algorithm::update_min_max`.  The Rust function `unwrap`s
`min_max.min_value` after observing `min_max.max_move` to be `Some`; the
embedding returns `none` exactly when that `unwrap` would panic. -/
def update_min_max (piece_move : Move) (min_max : MinMax) : Option MinMax :=
  match min_max.max_move with
  | none =>
    some { max_move := some piece_move, min_value := some piece_move.value }
  | some max_move =>
    match min_max.min_value with
    | none => none
    | some min_value =>
      if piece_move.value > max_move.value then
        some { min_max with max_move := some piece_move }
      else if piece_move.value < min_value then
        some { min_max with min_value := some piece_move.value }
      else
        some min_max

/-- `algorithm::update_prune_value`. -/
def update_prune_value (master_team : Bool) (min_max : MinMax) : Option Int :=
  if master_team then
    match min_max.max_move with
    | some max_move => some max_move.value
    | none => none
  else
    min_max.min_value

/-- `move_generator::TurnError`: the four outcomes of a failed turn
application. -/
inductive TurnError where
  | Win
  | Draw
  | InvalidMove
  | InvalidMoveCheck
deriving DecidableEq, Repr

/-- `board_representation::Board`, restricted to the fields `algorithm.rs`
reads: the 12 piece bitboards, the side-to-move flag and the points delta of
the most recently applied move.  The bitboards are a function from board index
to bitboard; only indexes 0-11 are ever consulted. -/
structure Board where
  board : Nat → Nat
  whites_move : Bool
  points_delta : Int

/-- `TeamBitboards`: aggregate occupancy masks for the friendly and enemy
sides. -/
structure TeamBitboards where
  friendly_team : Nat
  enemy_team : Nat

/-- `move_generator::EnemyAttacks`, restricted to the one field `algorithm.rs`
reads: the union of all squares the enemy side attacks. -/
structure EnemyAttacks where
  enemy_attack_bitboard : Nat

/-- The result of `move_generator::gen_piece`, restricted to the one field
`algorithm.rs` reads. -/
structure PieceMoves where
  moves_bitboard : Nat

/-- `piece::constants::PieceInfo`, restricted to the one field `algorithm.rs`
reads: the signed material value of the piece type. -/
structure PieceInfo where
  value : Int

/-- Modelled from the spec: the crate-level bit test `bit_on(bitboard, bit)`
(`board_representation` is not part of the sources under verification).  Per
the glossary, bit `i` of a bitboard represents square `i`, and the operation
is a plain bit test. -/
def bit_on (bitboard : Nat) (bit : Nat) : Bool :=
  Nat.testBit bitboard bit

/-- Modelled from the spec: `find_bit_on(bitboard, start)` returns the index
of a set bit at or after `start` ("find the index of the next/any set bit in a
bitboard starting from a given offset"); 64 when no such bit exists. -/
def find_bit_on (bitboard : Nat) (start : Nat) : Nat :=
  match (List.range 64).find? (fun b => decide (start ≤ b) && bit_on bitboard b) with
  | some b => b
  | none => 64

/-- The collaborators of `algorithm.rs` that live in the crate's other
modules.  `gen_piece` is always called by `order_moves` with `None` for the
en-passant override and `false` for the attack-only flag, so those constant
arguments are elided from the abstract signature. -/
structure Env where
  new_turn : BoardCoordinates → Nat → BoardCoordinates → BoardCoordinates →
    EnemyAttacks → TeamBitboards → Board → (Nat → PieceInfo) →
    Except TurnError Board
  gen_piece : BoardCoordinates → TeamBitboards → Board → (Nat → PieceInfo) →
    PieceMoves
  gen_enemy_attacks : BoardCoordinates → TeamBitboards → Board →
    (Nat → PieceInfo) → EnemyAttacks
  team_bitboards_new : Nat → Board → TeamBitboards

/-- The friendly board-index range of `order_moves` (`0..6` for white to move,
`6..12` for black). -/
def friendly_indexes (board : Board) : List Nat :=
  if board.whites_move then List.range' 0 6 else List.range' 6 6

/-- The enemy board-index range of `order_moves`
(`enemy_index_bottom..enemy_index_top`). -/
def enemy_indexes (board : Board) : List Nat :=
  if board.whites_move then List.range' 6 6 else List.range' 0 6

/-- The `move_value` computation of `order_moves` (lines 265-284): 0 unless an
enemy piece occupies the destination square, in which case the first enemy
board with that bit set determines the captured piece; an even trade is
anticipated when the destination is enemy-attacked. -/
def capture_move_value (board : Board) (enemy_attacks : EnemyAttacks)
    (team_bitboards : TeamBitboards) (pieces_info : Nat → PieceInfo)
    (piece_index final_bit : Nat) : Int :=
  if bit_on team_bitboards.enemy_team final_bit then
    match (enemy_indexes board).find? (fun j => bit_on (board.board j) final_bit) with
    | some j =>
      if bit_on enemy_attacks.enemy_attack_bitboard final_bit then
        (pieces_info piece_index).value - (pieces_info j).value
      else
        (pieces_info j).value
    | none => 0
  else 0

/-- The comparator of `order_moves`'s `sort_by` closure, as a `Bool`-valued
"less or equal" relation: descending by value, then descending by heatmap
value among equal values. -/
def moveLE (a b : Move) : Bool :=
  if a.value == b.value then
    decide (b.heatmap_value ≤ a.heatmap_value)
  else
    decide (b.value < a.value)

/-- `algorithm::order_moves`: enumerate every friendly piece and destination
square, keep destinations set in the piece's generated move bitboard (or any
destination at all for the reference king, to cover castling), score captures
via `capture_move_value`, and optionally sort by `moveLE`. -/
def order_moves (sort : Bool) (board : Board) (enemy_attacks : EnemyAttacks)
    (friendly_king : BoardCoordinates) (opening_heatmap : Nat → Nat → Nat)
    (team_bitboards : TeamBitboards) (pieces_info : Nat → PieceInfo)
    (env : Env) : List Move :=
  let moves := (friendly_indexes board).flatMap (fun i =>
    (List.range 64).flatMap (fun initial_bit =>
      if bit_on (board.board i) initial_bit then
        let initial_piece_coordinates : BoardCoordinates := ⟨i, initial_bit⟩
        let piece_moves := env.gen_piece initial_piece_coordinates team_bitboards board pieces_info
        (List.range 64).flatMap (fun final_bit =>
          let heatmap_value := opening_heatmap i final_bit
          if bit_on piece_moves.moves_bitboard final_bit then
            [⟨initial_piece_coordinates, final_bit,
              capture_move_value board enemy_attacks team_bitboards pieces_info i final_bit,
              heatmap_value⟩]
          else if initial_piece_coordinates = friendly_king then
            [⟨initial_piece_coordinates, final_bit, 0, heatmap_value⟩]
          else
            [])
      else
        []))
  if sort then moves.mergeSort moveLE else moves

/-- The alpha-beta pruning test of `gen_best_move` (lines 184-208): with a
parent bound present, a master-side ply cuts once the running maximum reaches
the bound, a non-master ply once the running minimum falls to it. -/
def prune_cut (master_team : Bool) (parent_value : Option Int) (min_max : MinMax) : Bool :=
  match parent_value with
  | none => false
  | some value =>
    if master_team then
      match min_max.max_move with
      | some max_move => decide (max_move.value ≥ value)
      | none => false
    else
      match min_max.min_value with
      | some min_value => decide (min_value ≤ value)
      | none => false

/-- The candidate loop of `gen_best_move` (lines 120-209).  `recCall` is the
one-ply-deeper recursive call (`gen_best_move` with the side flag negated),
abstracted so the loop can be stated and proved independently of the fuel
bookkeeping; it receives the negated side flag, `current_depth + 1`, the new
accumulated value, the prune value and the new board.  A `none` result is a
propagated panic from a deeper `unwrap`. -/
def gen_loop (env : Env)
    (recCall : Bool → Nat → Int → Option Int → Board → Option Move)
    (master_team : Bool) (current_depth : Nat) (init_value : Int)
    (parent_value : Option Int) (pieces_info : Nat → PieceInfo)
    (friendly_king enemy_king : BoardCoordinates)
    (enemy_attacks : EnemyAttacks) (team_bitboards : TeamBitboards)
    (board : Board) :
    List Move → MinMax → Option Int → Option MinMax
  | [], min_max, _ => some min_max
  | m :: rest, min_max, prune_value =>
    match env.new_turn m.initial_piece_coordinates m.final_piece_bit friendly_king
        enemy_king enemy_attacks team_bitboards board pieces_info with
    | .ok new_board =>
      let move_value := new_board.points_delta
      let move_value := if !master_team then move_value * (-1) else move_value
      let branch_value := init_value + move_value
      match recCall (!master_team) (current_depth + 1) branch_value prune_value new_board with
      | none => none
      | some piece_move =>
        match update_min_max
            ⟨m.initial_piece_coordinates, m.final_piece_bit, piece_move.value, 0⟩
            min_max with
        | none => none
        | some min_max =>
          if prune_cut master_team parent_value min_max then
            some min_max
          else
            gen_loop env recCall master_team current_depth init_value parent_value
              pieces_info friendly_king enemy_king enemy_attacks team_bitboards board
              rest min_max (update_prune_value master_team min_max)
    | .error error =>
      let branch_value : Int :=
        match error with
        | .Win => 127
        | .Draw => 0
        | .InvalidMove => 0
        | .InvalidMoveCheck => 0
      let valid_move : Bool :=
        match error with
        | .Win => true
        | .Draw => true
        | .InvalidMove => false
        | .InvalidMoveCheck => false
      let branch_value := if !master_team then branch_value * (-1) else branch_value
      if valid_move then
        match update_min_max
            ⟨m.initial_piece_coordinates, m.final_piece_bit, branch_value, 0⟩
            min_max with
        | none => none
        | some min_max =>
          gen_loop env recCall master_team current_depth init_value parent_value
            pieces_info friendly_king enemy_king enemy_attacks team_bitboards board
            rest min_max (update_prune_value master_team min_max)
      else
        gen_loop env recCall master_team current_depth init_value parent_value
          pieces_info friendly_king enemy_king enemy_attacks team_bitboards board
          rest min_max prune_value

/-- `gen_best_move`'s `friendly_king_index` (5 when white to move, 11
otherwise). -/
def node_friendly_king_index (board : Board) : Nat :=
  if board.whites_move then 5 else 11

/-- `gen_best_move`'s `enemy_king_index`. -/
def node_enemy_king_index (board : Board) : Nat :=
  if board.whites_move then 11 else 5

/-- `gen_best_move`'s `friendly_king` coordinates. -/
def node_friendly_king (board : Board) : BoardCoordinates :=
  ⟨node_friendly_king_index board,
    find_bit_on (board.board (node_friendly_king_index board)) 0⟩

/-- `gen_best_move`'s `enemy_king` coordinates. -/
def node_enemy_king (board : Board) : BoardCoordinates :=
  ⟨node_enemy_king_index board,
    find_bit_on (board.board (node_enemy_king_index board)) 0⟩

/-- `gen_best_move`'s `team_bitboards`. -/
def node_team_bitboards (env : Env) (board : Board) : TeamBitboards :=
  env.team_bitboards_new (node_friendly_king_index board) board

/-- `gen_best_move`'s `enemy_attacks`. -/
def node_enemy_attacks (env : Env) (pieces_info : Nat → PieceInfo) (board : Board) :
    EnemyAttacks :=
  env.gen_enemy_attacks (node_friendly_king board) (node_team_bitboards env board)
    board pieces_info

/-- `gen_best_move`'s candidate move list: `order_moves` with sorting enabled
on the node's derived data. -/
def node_moves (env : Env) (opening_heatmap : Nat → Nat → Nat)
    (pieces_info : Nat → PieceInfo) (board : Board) : List Move :=
  order_moves true board (node_enemy_attacks env pieces_info board)
    (node_friendly_king board) opening_heatmap (node_team_bitboards env board)
    pieces_info env

/-- `algorithm::gen_best_move`, with an explicit fuel argument bounding the
recursion depth (the wrapper `gen_best_move` supplies
`search_depth - current_depth`).  The depth check of line 78 is performed
before the fuel is consulted, exactly as the Rust function checks it before
doing any work; a `none` result is a panic (lines 213/215, an `unwrap` of an
unset accumulator, possibly propagated from a deeper ply) or exhausted fuel
(which the wrapper's choice of fuel makes unreachable whenever
`current_depth ≤ search_depth`). -/
def gen_best_move_aux (env : Env) (opening_heatmap : Nat → Nat → Nat)
    (pieces_info : Nat → PieceInfo) (fuel : Nat) (master_team : Bool)
    (search_depth current_depth : Nat) (init_value : Int)
    (parent_value : Option Int) (board : Board) : Option Move :=
    if current_depth = search_depth then
      some { Move.new with value := init_value }
    else
      match fuel with
      | 0 => none
      | fuel + 1 =>
        match gen_loop env
            (fun m cd iv pv b =>
              gen_best_move_aux env opening_heatmap pieces_info fuel m search_depth cd iv pv b)
            master_team current_depth init_value parent_value pieces_info
            (node_friendly_king board) (node_enemy_king board)
            (node_enemy_attacks env pieces_info board) (node_team_bitboards env board)
            board (node_moves env opening_heatmap pieces_info board)
            ⟨none, none⟩ none with
        | none => none
        | some min_max =>
          if master_team then
            min_max.max_move
          else
            match min_max.min_value with
            | some v => some { Move.new with value := v }
            | none => none
termination_by structural fuel

/-- `algorithm::gen_best_move`.  The recursion of the Rust function is driven
by `current_depth` increasing towards `search_depth`, so
`search_depth - current_depth` bounds its depth and serves as the fuel. -/
def gen_best_move (env : Env) (opening_heatmap : Nat → Nat → Nat)
    (pieces_info : Nat → PieceInfo) (master_team : Bool)
    (search_depth current_depth : Nat) (init_value : Int)
    (parent_value : Option Int) (board : Board) : Option Move :=
  gen_best_move_aux env opening_heatmap pieces_info (search_depth - current_depth)
    master_team search_depth current_depth init_value parent_value board

/-- A candidate move "succeeds or ends the game": turn application returns a
new board, a win, or a draw (as opposed to the two invalid-move outcomes). -/
def okOrTerminal (env : Env) (pieces_info : Nat → PieceInfo)
    (friendly_king enemy_king : BoardCoordinates) (enemy_attacks : EnemyAttacks)
    (team_bitboards : TeamBitboards) (board : Board) (m : Move) : Bool :=
  match env.new_turn m.initial_piece_coordinates m.final_piece_bit friendly_king
      enemy_king enemy_attacks team_bitboards board pieces_info with
  | .ok _ => true
  | .error .Win => true
  | .error .Draw => true
  | .error .InvalidMove => false
  | .error .InvalidMoveCheck => false

/-- C9: `update_min_max` on an uninitialized accumulator (both fields `None`)
returns the candidate as maximum move and its value as minimum value; on an
initialized accumulator (both fields set, minimum not above maximum), a
candidate strictly above the maximum replaces the maximum move, one strictly
below the minimum replaces the minimum value, and one strictly between leaves
the accumulator unchanged. -/
theorem update_min_max_spec (m : Move) :
    update_min_max m ⟨none, none⟩ = some ⟨some m, some m.value⟩ ∧
    ∀ mm : MinMax, ∀ mx : Move, ∀ mv : Int,
      mm.max_move = some mx → mm.min_value = some mv → mv ≤ mx.value →
      ((mx.value < m.value →
          update_min_max m mm = some { mm with max_move := some m }) ∧
       (m.value < mv →
          update_min_max m mm = some { mm with min_value := some m.value }) ∧
       (mv < m.value → m.value < mx.value → update_min_max m mm = some mm)) := by
  refine ⟨rfl, ?_⟩
  intro mm mx mv hmx hmv hinv
  refine ⟨?_, ?_, ?_⟩
  · intro h
    simp [update_min_max, hmx, hmv, gt_iff_lt, h]
  · intro h
    have h2 : ¬ mx.value < m.value := by omega
    simp [update_min_max, hmx, hmv, gt_iff_lt, h2, h]
  · intro h1 h2
    have h3 : ¬ mx.value < m.value := by omega
    have h4 : ¬ m.value < mv := by omega
    simp [update_min_max, hmx, hmv, gt_iff_lt, h3, h4]

/-- Witness for C9 at concrete accumulators and candidates. -/
theorem update_min_max_spec_witness :
    update_min_max ⟨⟨0, 0⟩, 0, 5, 0⟩ ⟨none, none⟩ =
      some ⟨some ⟨⟨0, 0⟩, 0, 5, 0⟩, some 5⟩ ∧
    update_min_max ⟨⟨0, 0⟩, 0, 5, 0⟩ ⟨some ⟨⟨1, 1⟩, 1, 4, 0⟩, some 2⟩ =
      some ⟨some ⟨⟨0, 0⟩, 0, 5, 0⟩, some 2⟩ ∧
    update_min_max ⟨⟨0, 0⟩, 0, 1, 0⟩ ⟨some ⟨⟨1, 1⟩, 1, 4, 0⟩, some 2⟩ =
      some ⟨some ⟨⟨1, 1⟩, 1, 4, 0⟩, some 1⟩ ∧
    update_min_max ⟨⟨0, 0⟩, 0, 3, 0⟩ ⟨some ⟨⟨1, 1⟩, 1, 4, 0⟩, some 2⟩ =
      some ⟨some ⟨⟨1, 1⟩, 1, 4, 0⟩, some 2⟩ :=
  ⟨(update_min_max_spec ⟨⟨0, 0⟩, 0, 5, 0⟩).1,
   ((update_min_max_spec ⟨⟨0, 0⟩, 0, 5, 0⟩).2 ⟨some ⟨⟨1, 1⟩, 1, 4, 0⟩, some 2⟩
      ⟨⟨1, 1⟩, 1, 4, 0⟩ 2 rfl rfl (by decide)).1 (by decide),
   (((update_min_max_spec ⟨⟨0, 0⟩, 0, 1, 0⟩).2 ⟨some ⟨⟨1, 1⟩, 1, 4, 0⟩, some 2⟩
      ⟨⟨1, 1⟩, 1, 4, 0⟩ 2 rfl rfl (by decide)).2.1 (by decide)),
   (((update_min_max_spec ⟨⟨0, 0⟩, 0, 3, 0⟩).2 ⟨some ⟨⟨1, 1⟩, 1, 4, 0⟩, some 2⟩
      ⟨⟨1, 1⟩, 1, 4, 0⟩ 2 rfl rfl (by decide)).2.2 (by decide) (by decide))⟩

/-- `order_moves` with sorting enabled is the merge sort, by `moveLE`, of the
unsorted enumeration. -/
theorem order_moves_true_eq (board : Board) (enemy_attacks : EnemyAttacks)
    (friendly_king : BoardCoordinates) (opening_heatmap : Nat → Nat → Nat)
    (team_bitboards : TeamBitboards) (pieces_info : Nat → PieceInfo) (env : Env) :
    order_moves true board enemy_attacks friendly_king opening_heatmap
        team_bitboards pieces_info env =
      (order_moves false board enemy_attacks friendly_king opening_heatmap
        team_bitboards pieces_info env).mergeSort moveLE :=
  rfl

/-- Membership in `order_moves` does not depend on the sorting flag. -/
theorem mem_order_moves_iff (s : Bool) (board : Board) (enemy_attacks : EnemyAttacks)
    (friendly_king : BoardCoordinates) (opening_heatmap : Nat → Nat → Nat)
    (team_bitboards : TeamBitboards) (pieces_info : Nat → PieceInfo) (env : Env)
    (m : Move) :
    m ∈ order_moves s board enemy_attacks friendly_king opening_heatmap
        team_bitboards pieces_info env ↔
      m ∈ order_moves false board enemy_attacks friendly_king opening_heatmap
        team_bitboards pieces_info env := by
  cases s
  · exact Iff.rfl
  · rw [order_moves_true_eq]
    exact List.mem_mergeSort

/-- Provenance of every move produced by `order_moves`: it arises from an
occupied friendly square, carries the heatmap entry of its piece type and
destination, and is either a bitboard move valued by `capture_move_value` or a
speculative king move valued 0. -/
theorem mem_order_moves (s : Bool) (board : Board) (enemy_attacks : EnemyAttacks)
    (friendly_king : BoardCoordinates) (opening_heatmap : Nat → Nat → Nat)
    (team_bitboards : TeamBitboards) (pieces_info : Nat → PieceInfo) (env : Env)
    (m : Move)
    (hm : m ∈ order_moves s board enemy_attacks friendly_king opening_heatmap
      team_bitboards pieces_info env) :
    m.initial_piece_coordinates.board_index ∈ friendly_indexes board ∧
    m.initial_piece_coordinates.bit < 64 ∧ m.final_piece_bit < 64 ∧
    bit_on (board.board m.initial_piece_coordinates.board_index)
      m.initial_piece_coordinates.bit = true ∧
    m.heatmap_value =
      opening_heatmap m.initial_piece_coordinates.board_index m.final_piece_bit ∧
    ((bit_on (env.gen_piece m.initial_piece_coordinates team_bitboards board
          pieces_info).moves_bitboard m.final_piece_bit = true ∧
      m.value = capture_move_value board enemy_attacks team_bitboards pieces_info
        m.initial_piece_coordinates.board_index m.final_piece_bit) ∨
     (bit_on (env.gen_piece m.initial_piece_coordinates team_bitboards board
          pieces_info).moves_bitboard m.final_piece_bit = false ∧
      m.initial_piece_coordinates = friendly_king ∧ m.value = 0)) := by
  rw [mem_order_moves_iff] at hm
  simp only [order_moves, if_neg (Bool.false_ne_true)] at hm
  rcases List.mem_flatMap.1 hm with ⟨i, hi, hm⟩
  rcases List.mem_flatMap.1 hm with ⟨ib, hib, hm⟩
  rcases hpiece : bit_on (board.board i) ib with _ | _
  · rw [if_neg (by simp [hpiece])] at hm
    cases hm
  · rw [if_pos hpiece] at hm
    rcases List.mem_flatMap.1 hm with ⟨fb, hfb, hm⟩
    rcases hgen : bit_on (env.gen_piece ⟨i, ib⟩ team_bitboards board
        pieces_info).moves_bitboard fb with _ | _
    · rw [if_neg (by simp [hgen])] at hm
      by_cases hking : (⟨i, ib⟩ : BoardCoordinates) = friendly_king
      · rw [if_pos hking] at hm
        rcases List.mem_singleton.1 hm with rfl
        refine ⟨hi, List.mem_range.1 hib, List.mem_range.1 hfb, hpiece, rfl, ?_⟩
        exact Or.inr ⟨hgen, hking, rfl⟩
      · rw [if_neg hking] at hm
        cases hm
    · rw [if_pos hgen] at hm
      rcases List.mem_singleton.1 hm with rfl
      refine ⟨hi, List.mem_range.1 hib, List.mem_range.1 hfb, hpiece, rfl, ?_⟩
      exact Or.inl ⟨hgen, rfl⟩

/-- The first list element satisfying a predicate nowhere else satisfied is
found by `find?`. -/
theorem find_unique_eq_some {α : Type} (l : List α) (p : α → Bool) (j : α)
    (hj : j ∈ l) (hpj : p j = true)
    (huniq : ∀ k ∈ l, k ≠ j → p k = false) :
    l.find? p = some j := by
  induction l with
  | nil => cases hj
  | cons a l ih =>
    by_cases ha : a = j
    · subst ha
      simp [List.find?_cons, hpj]
    · have hpa : p a = false := huniq a (List.mem_cons_self a l) ha
      rw [List.find?_cons, hpa]
      rcases List.mem_cons.1 hj with rfl | hj2
      · exact absurd rfl ha
      · exact ih hj2 fun k hk => huniq k (List.mem_cons_of_mem a hk)

/-- C6: every move included by `order_moves` because its destination bit is
set in the piece's generated move bitboard is valued 0 when no enemy piece
occupies the destination square; when an enemy piece occupies it (uniquely,
and the destination is flagged in the enemy team mask), the value is
`moving_piece_value - captured_piece_value` if the destination is in the enemy
attack bitboard and the full `captured_piece_value` otherwise. -/
theorem order_moves_value_spec (s : Bool) (board : Board)
    (enemy_attacks : EnemyAttacks) (friendly_king : BoardCoordinates)
    (opening_heatmap : Nat → Nat → Nat) (team_bitboards : TeamBitboards)
    (pieces_info : Nat → PieceInfo) (env : Env) (m : Move)
    (hm : m ∈ order_moves s board enemy_attacks friendly_king opening_heatmap
      team_bitboards pieces_info env)
    (hbit : bit_on (env.gen_piece m.initial_piece_coordinates team_bitboards
      board pieces_info).moves_bitboard m.final_piece_bit = true) :
    ((∀ j ∈ enemy_indexes board,
        bit_on (board.board j) m.final_piece_bit = false) → m.value = 0) ∧
    (∀ j ∈ enemy_indexes board, bit_on (board.board j) m.final_piece_bit = true →
      (∀ k ∈ enemy_indexes board, k ≠ j →
        bit_on (board.board k) m.final_piece_bit = false) →
      bit_on team_bitboards.enemy_team m.final_piece_bit = true →
      m.value =
        if bit_on enemy_attacks.enemy_attack_bitboard m.final_piece_bit then
          (pieces_info m.initial_piece_coordinates.board_index).value -
            (pieces_info j).value
        else (pieces_info j).value) := by
  have hv : m.value = capture_move_value board enemy_attacks team_bitboards
      pieces_info m.initial_piece_coordinates.board_index m.final_piece_bit := by
    rcases (mem_order_moves s board enemy_attacks friendly_king opening_heatmap
        team_bitboards pieces_info env m hm).2.2.2.2.2 with ⟨_, hv⟩ | ⟨hfalse, _, _⟩
    · exact hv
    · rw [hbit] at hfalse
      cases hfalse
  constructor
  · intro hnone
    rw [hv]
    unfold capture_move_value
    have hfind : (enemy_indexes board).find?
        (fun j => bit_on (board.board j) m.final_piece_bit) = none := by
      rw [List.find?_eq_none]
      intro j hj
      simp [hnone j hj]
    rw [hfind]
    split <;> rfl
  · intro j hj hocc huniq henemy
    rw [hv]
    unfold capture_move_value
    rw [if_pos henemy,
      find_unique_eq_some (enemy_indexes board) _ j hj hocc
        (fun k hk hkj => huniq k hk hkj)]

unseal List.merge List.mergeSort in
/-- Witness for C6: with one enemy piece on the destination square the move is
valued at the full captured piece value (the destination is not
enemy-attacked), and a move to an empty square is valued 0. -/
theorem order_moves_value_spec_witness :
    (Move.value ⟨⟨0, 0⟩, 0, 0, 0⟩ = 0) ∧
    (Move.value ⟨⟨0, 0⟩, 1, 3, 0⟩ =
      if bit_on (EnemyAttacks.enemy_attack_bitboard ⟨0⟩) 1 then
        (PieceInfo.value ⟨1⟩) - (PieceInfo.value ⟨3⟩)
      else (PieceInfo.value ⟨3⟩)) := by
  constructor
  · exact (order_moves_value_spec true ⟨fun i => if i = 0 then 1 else if i = 6 then 2 else 0, true, 0⟩
      ⟨0⟩ ⟨5, 64⟩ (fun _ _ => 0) ⟨1, 2⟩
      (fun i => if i = 0 then ⟨1⟩ else if i = 6 then ⟨3⟩ else ⟨0⟩)
      ⟨fun _ _ _ _ _ _ _ _ => .error .Draw, fun _ _ _ _ => ⟨1⟩,
        fun _ _ _ _ => ⟨0⟩, fun _ _ => ⟨1, 2⟩⟩
      ⟨⟨0, 0⟩, 0, 0, 0⟩ (by decide) (by decide)).1 (by decide)
  · exact ((order_moves_value_spec true ⟨fun i => if i = 0 then 1 else if i = 6 then 2 else 0, true, 0⟩
      ⟨0⟩ ⟨5, 64⟩ (fun _ _ => 0) ⟨1, 2⟩
      (fun i => if i = 0 then ⟨1⟩ else if i = 6 then ⟨3⟩ else ⟨0⟩)
      ⟨fun _ _ _ _ _ _ _ _ => .error .Win, fun _ _ _ _ => ⟨2⟩,
        fun _ _ _ _ => ⟨0⟩, fun _ _ => ⟨1, 2⟩⟩
      ⟨⟨0, 0⟩, 1, 3, 0⟩ (by decide) (by decide)).2 6 (by decide) (by decide)
      (by decide) (by decide)).trans (by norm_num)

/-- C8: every move returned by `order_moves` whose initial coordinates are not
the friendly king's has its destination bit set in that piece's generated
move bitboard (king moves are exempt: they are emitted speculatively for
castling). -/
theorem order_moves_bitboard_spec (s : Bool) (board : Board)
    (enemy_attacks : EnemyAttacks) (friendly_king : BoardCoordinates)
    (opening_heatmap : Nat → Nat → Nat) (team_bitboards : TeamBitboards)
    (pieces_info : Nat → PieceInfo) (env : Env) (m : Move)
    (hm : m ∈ order_moves s board enemy_attacks friendly_king opening_heatmap
      team_bitboards pieces_info env)
    (hk : m.initial_piece_coordinates ≠ friendly_king) :
    bit_on (env.gen_piece m.initial_piece_coordinates team_bitboards board
      pieces_info).moves_bitboard m.final_piece_bit = true := by
  rcases (mem_order_moves s board enemy_attacks friendly_king opening_heatmap
      team_bitboards pieces_info env m hm).2.2.2.2.2 with ⟨hbit, _⟩ | ⟨_, hking, _⟩
  · exact hbit
  · exact absurd hking hk

unseal List.merge List.mergeSort in
/-- Witness for C8 at a concrete board and environment. -/
theorem order_moves_bitboard_spec_witness :
    bit_on (PieceMoves.moves_bitboard
      (Env.gen_piece ⟨fun _ _ _ _ _ _ _ _ => .error .Win, fun _ _ _ _ => ⟨2⟩,
          fun _ _ _ _ => ⟨0⟩, fun _ _ => ⟨1, 2⟩⟩
        ⟨0, 0⟩ ⟨1, 2⟩ ⟨fun i => if i = 0 then 1 else if i = 6 then 2 else 0, true, 0⟩
        (fun i => if i = 0 then ⟨1⟩ else if i = 6 then ⟨3⟩ else ⟨0⟩))) 1 = true :=
  order_moves_bitboard_spec true
    ⟨fun i => if i = 0 then 1 else if i = 6 then 2 else 0, true, 0⟩
    ⟨0⟩ ⟨5, 64⟩ (fun _ _ => 0) ⟨1, 2⟩
    (fun i => if i = 0 then ⟨1⟩ else if i = 6 then ⟨3⟩ else ⟨0⟩)
    ⟨fun _ _ _ _ _ _ _ _ => .error .Win, fun _ _ _ _ => ⟨2⟩,
      fun _ _ _ _ => ⟨0⟩, fun _ _ => ⟨1, 2⟩⟩
    ⟨⟨0, 0⟩, 1, 3, 0⟩ (by decide) (by decide)

/-- `moveLE` is transitive. -/
theorem moveLE_trans : ∀ a b c : Move,
    moveLE a b = true → moveLE b c = true → moveLE a c = true := by
  intro a b c hab hbc
  simp only [moveLE, beq_iff_eq] at hab hbc ⊢
  by_cases h1 : a.value = b.value <;> by_cases h2 : b.value = c.value
  · rw [if_pos h1] at hab
    rw [if_pos h2] at hbc
    rw [if_pos (h1.trans h2)]
    simp only [decide_eq_true_eq] at hab hbc ⊢
    omega
  · rw [if_pos h1] at hab
    rw [if_neg h2] at hbc
    rw [if_neg (by rw [h1]; exact h2)]
    simp only [decide_eq_true_eq] at hab hbc ⊢
    omega
  · rw [if_neg h1] at hab
    rw [if_pos h2] at hbc
    rw [if_neg (by rw [← h2]; exact h1)]
    simp only [decide_eq_true_eq] at hab hbc ⊢
    omega
  · rw [if_neg h1] at hab
    rw [if_neg h2] at hbc
    simp only [decide_eq_true_eq] at hab hbc
    rw [if_neg (by omega)]
    simp only [decide_eq_true_eq]
    omega

/-- `moveLE` is total. -/
theorem moveLE_total : ∀ a b : Move, (moveLE a b || moveLE b a) = true := by
  intro a b
  by_cases h1 : a.value = b.value
  · have h2 : b.value = a.value := h1.symm
    simp only [moveLE, beq_iff_eq, if_pos h1, if_pos h2, Bool.or_eq_true,
      decide_eq_true_eq]
    omega
  · have h2 : ¬ b.value = a.value := fun h => h1 h.symm
    simp only [moveLE, beq_iff_eq, if_neg h1, if_neg h2, Bool.or_eq_true,
      decide_eq_true_eq]
    omega

/-- C7: the list returned by `order_moves` with sorting enabled is pairwise
non-increasing in value, and among equal values non-increasing in heatmap
value. -/
theorem order_moves_sorted_spec (board : Board) (enemy_attacks : EnemyAttacks)
    (friendly_king : BoardCoordinates) (opening_heatmap : Nat → Nat → Nat)
    (team_bitboards : TeamBitboards) (pieces_info : Nat → PieceInfo) (env : Env) :
    (order_moves true board enemy_attacks friendly_king opening_heatmap
        team_bitboards pieces_info env).Pairwise
      (fun a b => b.value ≤ a.value ∧
        (a.value = b.value → b.heatmap_value ≤ a.heatmap_value)) := by
  rw [order_moves_true_eq]
  have hp := List.sorted_mergeSort moveLE_trans moveLE_total
    (order_moves false board enemy_attacks friendly_king opening_heatmap
      team_bitboards pieces_info env)
  refine hp.imp ?_
  intro a b hab
  by_cases h1 : a.value = b.value
  · simp only [moveLE, beq_iff_eq, h1, if_pos, decide_eq_true_eq] at hab
    refine ⟨le_of_eq h1.symm, fun _ => ?_⟩
    simpa using hab
  · simp only [moveLE, beq_iff_eq, if_neg h1, decide_eq_true_eq] at hab
    exact ⟨le_of_lt hab, fun hc => absurd hc h1⟩

section GenLoop

variable (env : Env) (recCall : Bool → Nat → Int → Option Int → Board → Option Move)
variable (master_team : Bool) (current_depth : Nat) (init_value : Int)
variable (parent_value : Option Int) (pieces_info : Nat → PieceInfo)
variable (friendly_king enemy_king : BoardCoordinates)
variable (enemy_attacks : EnemyAttacks) (team_bitboards : TeamBitboards)
variable (board : Board)

/-- C4: a candidate whose turn application returns `Win` is scored 127, one
returning `Draw` is scored 0 (each multiplied by -1 when not the master
team), and is entered into the running best with no recursive call; a
candidate returning `InvalidMove` or `InvalidMoveCheck` is skipped, leaving
the running best and the prune value unchanged. -/
theorem gen_loop_error_spec (m : Move) (rest : List Move) (mm : MinMax)
    (pv : Option Int) :
    (env.new_turn m.initial_piece_coordinates m.final_piece_bit friendly_king
        enemy_king enemy_attacks team_bitboards board pieces_info =
          .error .Win →
      gen_loop env recCall master_team current_depth init_value parent_value
          pieces_info friendly_king enemy_king enemy_attacks team_bitboards
          board (m :: rest) mm pv =
        match update_min_max ⟨m.initial_piece_coordinates, m.final_piece_bit,
            if master_team then 127 else -127, 0⟩ mm with
        | none => none
        | some mm2 =>
          gen_loop env recCall master_team current_depth init_value parent_value
            pieces_info friendly_king enemy_king enemy_attacks team_bitboards
            board rest mm2 (update_prune_value master_team mm2)) ∧
    (env.new_turn m.initial_piece_coordinates m.final_piece_bit friendly_king
        enemy_king enemy_attacks team_bitboards board pieces_info =
          .error .Draw →
      gen_loop env recCall master_team current_depth init_value parent_value
          pieces_info friendly_king enemy_king enemy_attacks team_bitboards
          board (m :: rest) mm pv =
        match update_min_max ⟨m.initial_piece_coordinates, m.final_piece_bit,
            0, 0⟩ mm with
        | none => none
        | some mm2 =>
          gen_loop env recCall master_team current_depth init_value parent_value
            pieces_info friendly_king enemy_king enemy_attacks team_bitboards
            board rest mm2 (update_prune_value master_team mm2)) ∧
    (env.new_turn m.initial_piece_coordinates m.final_piece_bit friendly_king
        enemy_king enemy_attacks team_bitboards board pieces_info =
          .error .InvalidMove →
      gen_loop env recCall master_team current_depth init_value parent_value
          pieces_info friendly_king enemy_king enemy_attacks team_bitboards
          board (m :: rest) mm pv =
        gen_loop env recCall master_team current_depth init_value parent_value
          pieces_info friendly_king enemy_king enemy_attacks team_bitboards
          board rest mm pv) ∧
    (env.new_turn m.initial_piece_coordinates m.final_piece_bit friendly_king
        enemy_king enemy_attacks team_bitboards board pieces_info =
          .error .InvalidMoveCheck →
      gen_loop env recCall master_team current_depth init_value parent_value
          pieces_info friendly_king enemy_king enemy_attacks team_bitboards
          board (m :: rest) mm pv =
        gen_loop env recCall master_team current_depth init_value parent_value
          pieces_info friendly_king enemy_king enemy_attacks team_bitboards
          board rest mm pv) := by
  refine ⟨?_, ?_, ?_, ?_⟩ <;> intro h <;>
    cases master_team <;> simp [gen_loop, h]

end GenLoop

/-- Test fixture: piece values (white pawn worth 1, black pawn worth 3). -/
def pieces_w : Nat → PieceInfo := fun i => if i = 0 then ⟨1⟩ else if i = 6 then ⟨3⟩ else ⟨0⟩

/-- Test fixture: a white piece on square 0 of board 0, a black piece on
square 1 of board 6, white to move. -/
def board_w : Board := ⟨fun i => if i = 0 then 1 else if i = 6 then 2 else 0, true, 0⟩

/-- Test fixture: team bitboards matching `board_w`. -/
def tb_w : TeamBitboards := ⟨1, 2⟩

/-- Test fixture: no square is enemy-attacked. -/
def ea_w : EnemyAttacks := ⟨0⟩

/-- Test fixture: friendly king coordinates (no king on `board_w`). -/
def fk_w : BoardCoordinates := ⟨5, 64⟩

/-- Test fixture: enemy king coordinates. -/
def ek_w : BoardCoordinates := ⟨11, 64⟩

/-- Test fixture: the all-zero heatmap. -/
def heat_w : Nat → Nat → Nat := fun _ _ => 0

/-- Test fixture: the board produced by a successful turn, with points delta
2. -/
def board_ok_w : Board := ⟨fun _ => 0, true, 2⟩

/-- Test fixture: an environment whose turn application always reports a
win. -/
def env_win_w : Env :=
  ⟨fun _ _ _ _ _ _ _ _ => .error .Win, fun _ _ _ _ => ⟨2⟩,
    fun _ _ _ _ => ⟨0⟩, fun _ _ => tb_w⟩

/-- Test fixture: turn application always reports a draw. -/
def env_draw_w : Env :=
  ⟨fun _ _ _ _ _ _ _ _ => .error .Draw, fun _ _ _ _ => ⟨2⟩,
    fun _ _ _ _ => ⟨0⟩, fun _ _ => tb_w⟩

/-- Test fixture: turn application always reports an invalid move. -/
def env_inv_w : Env :=
  ⟨fun _ _ _ _ _ _ _ _ => .error .InvalidMove, fun _ _ _ _ => ⟨2⟩,
    fun _ _ _ _ => ⟨0⟩, fun _ _ => tb_w⟩

/-- Test fixture: turn application always reports an invalid move due to
check. -/
def env_invc_w : Env :=
  ⟨fun _ _ _ _ _ _ _ _ => .error .InvalidMoveCheck, fun _ _ _ _ => ⟨2⟩,
    fun _ _ _ _ => ⟨0⟩, fun _ _ => tb_w⟩

/-- Test fixture: turn application always succeeds with `board_ok_w`. -/
def env_ok_w : Env :=
  ⟨fun _ _ _ _ _ _ _ _ => .ok board_ok_w, fun _ _ _ _ => ⟨2⟩,
    fun _ _ _ _ => ⟨0⟩, fun _ _ => tb_w⟩

/-- Test fixture: a recursive call that returns the accumulated value as a
leaf, like the real recursion at the depth limit. -/
def rc_w : Bool → Nat → Int → Option Int → Board → Option Move :=
  fun _ _ iv _ _ => some { Move.new with value := iv }

/-- Test fixture: the capture move enumerated by `order_moves` on
`board_w`. -/
def m_w : Move := ⟨⟨0, 0⟩, 1, 3, 0⟩

/-- Witness for C4: each of the four error outcomes at a concrete loop
state. -/
theorem gen_loop_error_spec_witness :
    gen_loop env_win_w rc_w true 0 0 none pieces_w fk_w ek_w ea_w tb_w board_w
      [m_w] ⟨none, none⟩ none = some ⟨some ⟨⟨0, 0⟩, 1, 127, 0⟩, some 127⟩ ∧
    gen_loop env_draw_w rc_w false 0 0 none pieces_w fk_w ek_w ea_w tb_w board_w
      [m_w] ⟨none, none⟩ none = some ⟨some ⟨⟨0, 0⟩, 1, 0, 0⟩, some 0⟩ ∧
    gen_loop env_inv_w rc_w true 0 0 none pieces_w fk_w ek_w ea_w tb_w board_w
      [m_w] ⟨none, none⟩ none = some ⟨none, none⟩ ∧
    gen_loop env_invc_w rc_w true 0 0 none pieces_w fk_w ek_w ea_w tb_w board_w
      [m_w] ⟨none, none⟩ none = some ⟨none, none⟩ :=
  ⟨((gen_loop_error_spec env_win_w rc_w true 0 0 none pieces_w fk_w ek_w ea_w
      tb_w board_w m_w [] ⟨none, none⟩ none).1 rfl).trans (by decide),
   ((gen_loop_error_spec env_draw_w rc_w false 0 0 none pieces_w fk_w ek_w ea_w
      tb_w board_w m_w [] ⟨none, none⟩ none).2.1 rfl).trans (by decide),
   ((gen_loop_error_spec env_inv_w rc_w true 0 0 none pieces_w fk_w ek_w ea_w
      tb_w board_w m_w [] ⟨none, none⟩ none).2.2.1 rfl).trans (by decide),
   ((gen_loop_error_spec env_invc_w rc_w true 0 0 none pieces_w fk_w ek_w ea_w
      tb_w board_w m_w [] ⟨none, none⟩ none).2.2.2 rfl).trans (by decide)⟩

section GenLoopStep

variable (env : Env) (recCall : Bool → Nat → Int → Option Int → Board → Option Move)
variable (master_team : Bool) (current_depth : Nat) (init_value : Int)
variable (parent_value : Option Int) (pieces_info : Nat → PieceInfo)
variable (friendly_king enemy_king : BoardCoordinates)
variable (enemy_attacks : EnemyAttacks) (team_bitboards : TeamBitboards)
variable (board : Board)

/-- C3: when a candidate's turn application succeeds, its contribution is the
new board's points delta, negated exactly when the ply is not the master
team's, added to the accumulated value; the one-ply-deeper call receives the
negated side flag, `current_depth + 1`, that sum, and — provided the loop's
prune-value state agrees with the running best, as it does on every reachable
state — this node's current running best (maximum value for a master ply,
minimum value otherwise) as the new parent bound. -/
theorem gen_loop_success_step (m : Move) (rest : List Move) (mm : MinMax)
    (pv : Option Int) (new_board : Board)
    (hok : env.new_turn m.initial_piece_coordinates m.final_piece_bit
      friendly_king enemy_king enemy_attacks team_bitboards board pieces_info =
        .ok new_board)
    (hpv : pv = update_prune_value master_team mm) :
    gen_loop env recCall master_team current_depth init_value parent_value
        pieces_info friendly_king enemy_king enemy_attacks team_bitboards board
        (m :: rest) mm pv =
      match recCall (!master_team) (current_depth + 1)
          (init_value + (if master_team then new_board.points_delta
            else -new_board.points_delta))
          (update_prune_value master_team mm) new_board with
      | none => none
      | some piece_move =>
        match update_min_max ⟨m.initial_piece_coordinates, m.final_piece_bit,
            piece_move.value, 0⟩ mm with
        | none => none
        | some mm2 =>
          if prune_cut master_team parent_value mm2 then some mm2
          else
            gen_loop env recCall master_team current_depth init_value
              parent_value pieces_info friendly_king enemy_king enemy_attacks
              team_bitboards board rest mm2 (update_prune_value master_team mm2) := by
  subst hpv
  cases master_team <;> simp [gen_loop, hok, mul_neg_one]

/-- C1: whenever a parent bound is present and, after a candidate whose
recursion succeeded, the updated running best reaches the bound (running
maximum at or above it on a master ply, running minimum at or below it on a
non-master ply), the loop stops with that accumulator: the remaining
candidates `rest` are never examined, whatever they are. -/
theorem gen_loop_prune_break (m : Move) (rest : List Move) (mm mm2 : MinMax)
    (pv : Option Int) (new_board : Board) (piece_move : Move) (v : Int)
    (hparent : parent_value = some v)
    (hok : env.new_turn m.initial_piece_coordinates m.final_piece_bit
      friendly_king enemy_king enemy_attacks team_bitboards board pieces_info =
        .ok new_board)
    (hrec : recCall (!master_team) (current_depth + 1)
      (init_value + (if !master_team then new_board.points_delta * (-1)
        else new_board.points_delta)) pv new_board = some piece_move)
    (hupd : update_min_max ⟨m.initial_piece_coordinates, m.final_piece_bit,
      piece_move.value, 0⟩ mm = some mm2)
    (hcut_master : master_team = true →
      ∃ mx, mm2.max_move = some mx ∧ v ≤ mx.value)
    (hcut_other : master_team = false →
      ∃ mv, mm2.min_value = some mv ∧ mv ≤ v) :
    gen_loop env recCall master_team current_depth init_value parent_value
      pieces_info friendly_king enemy_king enemy_attacks team_bitboards board
      (m :: rest) mm pv = some mm2 := by
  subst hparent
  cases master_team
  · obtain ⟨mv, hmv, hle⟩ := hcut_other rfl
    simp only [Bool.not_false, if_true, mul_neg_one] at hrec
    simp [gen_loop, hok, hrec, hupd, prune_cut, hmv, hle]
  · obtain ⟨mx, hmx, hle⟩ := hcut_master rfl
    simp only [Bool.not_true, Bool.false_eq_true, if_false] at hrec
    simp [gen_loop, hok, hrec, hupd, prune_cut, hmx, ge_iff_le, hle]

end GenLoopStep

/-- Witness for C3 at a concrete loop state: points delta 2 added to the
accumulated value 5 reaches the recursion as 7 and comes back as the
candidate's value. -/
theorem gen_loop_success_step_witness :
    gen_loop env_ok_w rc_w true 0 5 none pieces_w fk_w ek_w ea_w tb_w board_w
      [m_w] ⟨none, none⟩ none = some ⟨some ⟨⟨0, 0⟩, 1, 7, 0⟩, some 7⟩ :=
  (gen_loop_success_step env_ok_w rc_w true 0 5 none pieces_w fk_w ek_w ea_w
    tb_w board_w m_w [] ⟨none, none⟩ none board_ok_w rfl rfl).trans (by decide)

/-- Witness for C1 at a concrete loop state: with parent bound 0 and a first
candidate reaching value 2 ≥ 0 on a master ply, the loop stops without
examining the second candidate. -/
theorem gen_loop_prune_break_witness :
    gen_loop env_ok_w rc_w true 0 0 (some 0) pieces_w fk_w ek_w ea_w tb_w
      board_w [m_w, m_w] ⟨none, none⟩ none =
      some ⟨some ⟨⟨0, 0⟩, 1, 2, 0⟩, some 2⟩ :=
  gen_loop_prune_break env_ok_w rc_w true 0 0 (some 0) pieces_w fk_w ek_w ea_w
    tb_w board_w m_w [m_w] ⟨none, none⟩ ⟨some ⟨⟨0, 0⟩, 1, 2, 0⟩, some 2⟩ none
    board_ok_w ⟨⟨0, 0⟩, 0, 2, 0⟩ 0 rfl rfl (by decide) (by decide)
    (fun _ => ⟨⟨⟨0, 0⟩, 1, 2, 0⟩, rfl, by decide⟩) (fun h => nomatch h)

/-- `update_min_max` preserves the all-zero-heatmap property of the maximum
move when fed a zero-heatmap candidate. -/
theorem update_min_max_heat_zero (c : Move) (mm mm2 : MinMax)
    (hc : c.heatmap_value = 0)
    (hmm : ∀ mx, mm.max_move = some mx → mx.heatmap_value = 0)
    (h : update_min_max c mm = some mm2) :
    ∀ mx, mm2.max_move = some mx → mx.heatmap_value = 0 := by
  cases hmax : mm.max_move with
  | none =>
    simp only [update_min_max, hmax] at h
    rcases Option.some.inj h with rfl
    intro mx hmx
    rcases Option.some.inj hmx with rfl
    exact hc
  | some mxx =>
    cases hmin : mm.min_value with
    | none =>
      simp only [update_min_max, hmax, hmin] at h
      exact absurd h (by simp)
    | some mv =>
      simp only [update_min_max, hmax, hmin] at h
      split_ifs at h
      · rcases Option.some.inj h with rfl
        intro mx hmx
        rcases Option.some.inj hmx with rfl
        exact hc
      · rcases Option.some.inj h with rfl
        intro mx hmx
        have hx : mxx = mx := by simpa using hmx
        subst hx
        exact hmm mxx hmax
      · rcases Option.some.inj h with rfl
        exact hmm

section GenLoopHeat

variable (env : Env) (recCall : Bool → Nat → Int → Option Int → Board → Option Move)
variable (master_team : Bool) (current_depth : Nat) (init_value : Int)
variable (parent_value : Option Int) (pieces_info : Nat → PieceInfo)
variable (friendly_king enemy_king : BoardCoordinates)
variable (enemy_attacks : EnemyAttacks) (team_bitboards : TeamBitboards)
variable (board : Board)

/-- Every candidate entered into the accumulator by the loop carries heatmap
value 0, so the loop preserves the all-zero-heatmap property of the maximum
move. -/
theorem gen_loop_max_heat_zero (moves : List Move) :
    ∀ (mm : MinMax) (pv : Option Int) (mm2 : MinMax),
      (∀ mx, mm.max_move = some mx → mx.heatmap_value = 0) →
      gen_loop env recCall master_team current_depth init_value parent_value
        pieces_info friendly_king enemy_king enemy_attacks team_bitboards board
        moves mm pv = some mm2 →
      ∀ mx, mm2.max_move = some mx → mx.heatmap_value = 0 := by
  induction moves with
  | nil =>
    intro mm pv mm2 hmm h
    simp only [gen_loop] at h
    rcases Option.some.inj h with rfl
    exact hmm
  | cons m rest ih =>
    intro mm pv mm2 hmm h
    cases hnt : env.new_turn m.initial_piece_coordinates m.final_piece_bit
        friendly_king enemy_king enemy_attacks team_bitboards board pieces_info with
    | ok nb =>
      simp only [gen_loop, hnt] at h
      split at h
      · exact absurd h (by simp)
      · split at h
        · exact absurd h (by simp)
        · rename_i mmU hu
          split at h
          · rcases Option.some.inj h with rfl
            exact update_min_max_heat_zero _ mm _ rfl hmm hu
          · exact ih _ _ mm2 (update_min_max_heat_zero _ mm _ rfl hmm hu) h
    | error e =>
      cases e
      case Win | Draw =>
        simp only [gen_loop, hnt] at h
        rw [if_pos trivial] at h
        split at h
        · exact absurd h (by simp)
        · rename_i mmU hu
          exact ih _ _ mm2 (update_min_max_heat_zero _ mm _ rfl hmm hu) h
      case InvalidMove | InvalidMoveCheck =>
        simp only [gen_loop, hnt] at h
        rw [if_neg (by decide : ¬ (false = true))] at h
        exact ih mm pv mm2 hmm h

end GenLoopHeat

/-- C10: every move returned by `gen_best_move` has heatmap value 0: leaf and
placeholder moves are defaults, and the moves entered into the running best
are rebuilt with `heatmap_value: 0` after recursion or on a `Win`/`Draw`
terminal, so the heatmap values attached by `order_moves` never reach the
caller. -/
theorem gen_best_move_heatmap_spec (env : Env) (opening_heatmap : Nat → Nat → Nat)
    (pieces_info : Nat → PieceInfo) (master_team : Bool)
    (search_depth current_depth : Nat) (init_value : Int)
    (parent_value : Option Int) (board : Board) (r : Move)
    (h : gen_best_move env opening_heatmap pieces_info master_team search_depth
      current_depth init_value parent_value board = some r) :
    r.heatmap_value = 0 := by
  rw [gen_best_move, gen_best_move_aux.eq_def] at h
  by_cases hd : current_depth = search_depth
  · rw [if_pos hd] at h
    rcases Option.some.inj h with rfl
    rfl
  · rw [if_neg hd] at h
    cases hfe : search_depth - current_depth with
    | zero =>
      rw [hfe] at h
      exact absurd h (by simp)
    | succ fuel =>
      rw [hfe] at h
      simp only [] at h
      cases hl : gen_loop env
          (fun m cd iv pv b => gen_best_move_aux env opening_heatmap pieces_info
            fuel m search_depth cd iv pv b)
          master_team current_depth init_value parent_value pieces_info
          (node_friendly_king board) (node_enemy_king board)
          (node_enemy_attacks env pieces_info board) (node_team_bitboards env board)
          board (node_moves env opening_heatmap pieces_info board)
          ⟨none, none⟩ none with
      | none =>
        rw [hl] at h
        exact absurd h (by simp)
      | some mmF =>
        rw [hl] at h
        simp only [] at h
        cases master_team with
        | true =>
          rw [if_pos rfl] at h
          exact gen_loop_max_heat_zero env _ true current_depth init_value
            parent_value pieces_info (node_friendly_king board)
            (node_enemy_king board) (node_enemy_attacks env pieces_info board)
            (node_team_bitboards env board) board
            (node_moves env opening_heatmap pieces_info board) ⟨none, none⟩ none
            mmF (fun mx hmx => absurd hmx (by simp)) hl r h
        | false =>
          rw [if_neg (by decide : ¬ (false = true))] at h
          cases hmin : mmF.min_value with
          | none =>
            rw [hmin] at h
            exact absurd h (by simp)
          | some v =>
            rw [hmin] at h
            simp only [] at h
            rcases Option.some.inj h with rfl
            rfl

/-- Witness for C10: a depth-limit call returns the accumulated value in a
default move whose heatmap value is 0. -/
theorem gen_best_move_heatmap_spec_witness :
    Move.heatmap_value { Move.new with value := 5 } = 0 :=
  gen_best_move_heatmap_spec env_win_w heat_w pieces_w true 0 0 5 none board_w
    { Move.new with value := 5 } rfl

/-- The loop's result depends on the recursive call only through its values at
depth `current_depth + 1`, the only depth at which the loop invokes it. -/
theorem gen_loop_congr (env : Env)
    (rc1 rc2 : Bool → Nat → Int → Option Int → Board → Option Move)
    (master_team : Bool) (current_depth : Nat) (init_value : Int)
    (parent_value : Option Int) (pieces_info : Nat → PieceInfo)
    (friendly_king enemy_king : BoardCoordinates) (enemy_attacks : EnemyAttacks)
    (team_bitboards : TeamBitboards) (board : Board)
    (h : ∀ iv pv b, rc1 (!master_team) (current_depth + 1) iv pv b =
      rc2 (!master_team) (current_depth + 1) iv pv b) :
    ∀ (moves : List Move) (mm : MinMax) (pv : Option Int),
      gen_loop env rc1 master_team current_depth init_value parent_value
        pieces_info friendly_king enemy_king enemy_attacks team_bitboards board
        moves mm pv =
      gen_loop env rc2 master_team current_depth init_value parent_value
        pieces_info friendly_king enemy_king enemy_attacks team_bitboards board
        moves mm pv := by
  intro moves
  induction moves with
  | nil => intro mm pv; rfl
  | cons m rest ih =>
    intro mm pv
    cases hnt : env.new_turn m.initial_piece_coordinates m.final_piece_bit
        friendly_king enemy_king enemy_attacks team_bitboards board pieces_info with
    | ok nb => simp only [gen_loop, hnt, h, ih]
    | error e => cases e <;> simp only [gen_loop, hnt, ih]

/-- `gen_best_move_aux` does not depend on the fuel, as long as the fuel is at
least `search_depth - current_depth` and the current depth has not overrun the
search depth: the recursion bottoms out within that many plies. -/
theorem gen_best_move_aux_fuel (env : Env) (opening_heatmap : Nat → Nat → Nat)
    (pieces_info : Nat → PieceInfo) :
    ∀ (d f g : Nat) (master_team : Bool) (search_depth current_depth : Nat)
      (init_value : Int) (parent_value : Option Int) (board : Board),
      current_depth ≤ search_depth → search_depth - current_depth = d →
      d ≤ f → d ≤ g →
      gen_best_move_aux env opening_heatmap pieces_info f master_team
        search_depth current_depth init_value parent_value board =
      gen_best_move_aux env opening_heatmap pieces_info g master_team
        search_depth current_depth init_value parent_value board := by
  intro d
  induction d with
  | zero =>
    intro f g master_team search_depth current_depth init_value parent_value
      board hle hd hf hg
    have hcd : current_depth = search_depth := by omega
    rw [gen_best_move_aux.eq_def, gen_best_move_aux.eq_def, if_pos hcd, if_pos hcd]
  | succ d ihd =>
    intro f g master_team search_depth current_depth init_value parent_value
      board hle hd hf hg
    have hne : ¬ current_depth = search_depth := by omega
    obtain ⟨f2, rfl⟩ : ∃ f2, f = f2 + 1 := ⟨f - 1, by omega⟩
    obtain ⟨g2, rfl⟩ : ∃ g2, g = g2 + 1 := ⟨g - 1, by omega⟩
    rw [gen_best_move_aux.eq_def, gen_best_move_aux.eq_def, if_neg hne, if_neg hne]
    simp only []
    rw [gen_loop_congr env
      (fun m cd iv pv b => gen_best_move_aux env opening_heatmap pieces_info f2
        m search_depth cd iv pv b)
      (fun m cd iv pv b => gen_best_move_aux env opening_heatmap pieces_info g2
        m search_depth cd iv pv b)
      master_team current_depth init_value parent_value pieces_info
      (node_friendly_king board) (node_enemy_king board)
      (node_enemy_attacks env pieces_info board) (node_team_bitboards env board)
      board
      (fun iv pv b => ihd f2 g2 (!master_team) search_depth (current_depth + 1)
        iv pv b (by omega) (by omega) (by omega) (by omega))]

/-- C5: `gen_best_move` terminates on every call with
`current_depth ≤ search_depth`: when the depths are equal it returns
immediately the default move carrying the accumulated value (no move
generation is performed), and otherwise each recursive call increases
`current_depth` by 1 towards the unchanged `search_depth`, so the recursion is
bounded by `search_depth - current_depth` plies — running the recursion with
any fuel of at least that bound yields the same result as `gen_best_move`
itself. -/
theorem gen_best_move_termination_spec (env : Env)
    (opening_heatmap : Nat → Nat → Nat) (pieces_info : Nat → PieceInfo)
    (master_team : Bool) (search_depth current_depth : Nat) (init_value : Int)
    (parent_value : Option Int) (board : Board) :
    (current_depth = search_depth →
      gen_best_move env opening_heatmap pieces_info master_team search_depth
        current_depth init_value parent_value board =
        some { Move.new with value := init_value }) ∧
    (∀ fuel, current_depth ≤ search_depth →
      search_depth - current_depth ≤ fuel →
      gen_best_move_aux env opening_heatmap pieces_info fuel master_team
        search_depth current_depth init_value parent_value board =
      gen_best_move env opening_heatmap pieces_info master_team search_depth
        current_depth init_value parent_value board) := by
  constructor
  · intro h
    rw [gen_best_move, gen_best_move_aux.eq_def, if_pos h]
  · intro fuel hle hf
    exact gen_best_move_aux_fuel env opening_heatmap pieces_info
      (search_depth - current_depth) fuel (search_depth - current_depth)
      master_team search_depth current_depth init_value parent_value board
      hle rfl hf le_rfl

/-- Witness for C5: a call at the depth limit returns the accumulated value 7
immediately, and fuel 5 computes the same result as the exact fuel bound on a
depth-1 search. -/
theorem gen_best_move_termination_spec_witness :
    gen_best_move env_win_w heat_w pieces_w true 2 2 7 none board_w =
      some { Move.new with value := 7 } ∧
    gen_best_move_aux env_win_w heat_w pieces_w 5 true 1 0 0 none board_w =
      gen_best_move env_win_w heat_w pieces_w true 1 0 0 none board_w :=
  ⟨(gen_best_move_termination_spec env_win_w heat_w pieces_w true 2 2 7 none
      board_w).1 rfl,
   (gen_best_move_termination_spec env_win_w heat_w pieces_w true 1 0 0 none
      board_w).2 5 (by decide) (by decide)⟩

/-- Any successful `update_min_max` leaves both accumulator fields set. -/
theorem update_min_max_isSome (c : Move) (mm mm2 : MinMax)
    (h : update_min_max c mm = some mm2) :
    mm2.max_move.isSome = true ∧ mm2.min_value.isSome = true := by
  cases hmax : mm.max_move with
  | none =>
    simp only [update_min_max, hmax] at h
    rcases Option.some.inj h with rfl
    exact ⟨rfl, rfl⟩
  | some mxx =>
    cases hmin : mm.min_value with
    | none =>
      simp only [update_min_max, hmax, hmin] at h
      exact absurd h (by simp)
    | some mv =>
      simp only [update_min_max, hmax, hmin] at h
      split_ifs at h <;> rcases Option.some.inj h with rfl <;>
        simp [hmax, hmin]

section GenLoopInit

variable (env : Env) (recCall : Bool → Nat → Int → Option Int → Board → Option Move)
variable (master_team : Bool) (current_depth : Nat) (init_value : Int)
variable (parent_value : Option Int) (pieces_info : Nat → PieceInfo)
variable (friendly_king enemy_king : BoardCoordinates)
variable (enemy_attacks : EnemyAttacks) (team_bitboards : TeamBitboards)
variable (board : Board)

/-- If the loop completes and either started from an initialized accumulator
or saw at least one candidate that succeeds or ends the game, the final
accumulator is initialized (both fields set). -/
theorem gen_loop_initialized (moves : List Move) :
    ∀ (mm : MinMax) (pv : Option Int) (mm2 : MinMax),
      gen_loop env recCall master_team current_depth init_value parent_value
        pieces_info friendly_king enemy_king enemy_attacks team_bitboards board
        moves mm pv = some mm2 →
      ((mm.max_move.isSome = true ∧ mm.min_value.isSome = true) ∨
        ∃ m ∈ moves, okOrTerminal env pieces_info friendly_king enemy_king
          enemy_attacks team_bitboards board m = true) →
      mm2.max_move.isSome = true ∧ mm2.min_value.isSome = true := by
  induction moves with
  | nil =>
    intro mm pv mm2 h hor
    simp only [gen_loop] at h
    rcases Option.some.inj h with rfl
    rcases hor with h1 | ⟨m, hm, _⟩
    · exact h1
    · exact absurd hm (List.not_mem_nil m)
  | cons m rest ih =>
    intro mm pv mm2 h hor
    cases hnt : env.new_turn m.initial_piece_coordinates m.final_piece_bit
        friendly_king enemy_king enemy_attacks team_bitboards board pieces_info with
    | ok nb =>
      simp only [gen_loop, hnt] at h
      split at h
      · exact absurd h (by simp)
      · split at h
        · exact absurd h (by simp)
        · rename_i mmU hu
          split at h
          · rcases Option.some.inj h with rfl
            exact update_min_max_isSome _ mm _ hu
          · exact ih mmU _ mm2 h (Or.inl (update_min_max_isSome _ mm _ hu))
    | error e =>
      cases e
      case Win | Draw =>
        simp only [gen_loop, hnt] at h
        rw [if_pos trivial] at h
        split at h
        · exact absurd h (by simp)
        · rename_i mmU hu
          exact ih mmU _ mm2 h (Or.inl (update_min_max_isSome _ mm _ hu))
      case InvalidMove | InvalidMoveCheck =>
        simp only [gen_loop, hnt] at h
        rw [if_neg (by decide : ¬ (false = true))] at h
        apply ih mm pv mm2 h
        rcases hor with h1 | ⟨m2, hm2, hok⟩
        · exact Or.inl h1
        · rcases List.mem_cons.1 hm2 with rfl | hm2r
          · exfalso
            unfold okOrTerminal at hok
            rw [hnt] at hok
            simp at hok
          · exact Or.inr ⟨m2, hm2r, hok⟩

/-- If every candidate is invalid, the loop returns its accumulator
unchanged. -/
theorem gen_loop_all_invalid (moves : List Move) :
    ∀ (mm : MinMax) (pv : Option Int),
      (∀ m ∈ moves, okOrTerminal env pieces_info friendly_king enemy_king
        enemy_attacks team_bitboards board m = false) →
      gen_loop env recCall master_team current_depth init_value parent_value
        pieces_info friendly_king enemy_king enemy_attacks team_bitboards board
        moves mm pv = some mm := by
  induction moves with
  | nil => intro mm pv _; rfl
  | cons m rest ih =>
    intro mm pv hall
    have hm := hall m (List.mem_cons_self m rest)
    unfold okOrTerminal at hm
    cases hnt : env.new_turn m.initial_piece_coordinates m.final_piece_bit
        friendly_king enemy_king enemy_attacks team_bitboards board pieces_info with
    | ok nb =>
      rw [hnt] at hm
      simp at hm
    | error e =>
      cases e
      case Win | Draw =>
        rw [hnt] at hm
        simp at hm
      case InvalidMove | InvalidMoveCheck =>
        simp only [gen_loop, hnt]
        rw [if_neg (by decide : ¬ (false = true))]
        exact ih mm pv (fun m2 hm2 => hall m2 (List.mem_cons_of_mem m hm2))

end GenLoopInit

/-- C2: for a call with `current_depth < search_depth` whose candidate loop
completes: if at least one candidate succeeds or ends the game (`Win`/`Draw`),
the running-best accumulator is set and the `unwrap`s cannot panic — a master
node returns the accumulated maximum move, a non-master node a placeholder
move with default identity fields carrying the running minimum value; if no
candidate ever succeeds or terminates, the accumulator stays unset and
retrieving the result panics (embedded as the `none` result). -/
theorem gen_best_move_result_spec (env : Env) (opening_heatmap : Nat → Nat → Nat)
    (pieces_info : Nat → PieceInfo) (master_team : Bool)
    (search_depth current_depth : Nat) (init_value : Int)
    (parent_value : Option Int) (board : Board)
    (h : current_depth < search_depth) :
    (∀ mm : MinMax,
      gen_loop env
          (fun m2 cd2 iv2 pv2 b2 => gen_best_move_aux env opening_heatmap
            pieces_info (search_depth - (current_depth + 1)) m2 search_depth
            cd2 iv2 pv2 b2)
          master_team current_depth init_value parent_value pieces_info
          (node_friendly_king board) (node_enemy_king board)
          (node_enemy_attacks env pieces_info board)
          (node_team_bitboards env board) board
          (node_moves env opening_heatmap pieces_info board)
          ⟨none, none⟩ none = some mm →
      (∃ m ∈ node_moves env opening_heatmap pieces_info board,
        okOrTerminal env pieces_info (node_friendly_king board)
          (node_enemy_king board) (node_enemy_attacks env pieces_info board)
          (node_team_bitboards env board) board m = true) →
      ∃ mx mv, mm.max_move = some mx ∧ mm.min_value = some mv ∧
        gen_best_move env opening_heatmap pieces_info master_team search_depth
          current_depth init_value parent_value board =
          some (if master_team then mx else { Move.new with value := mv })) ∧
    ((∀ m ∈ node_moves env opening_heatmap pieces_info board,
        okOrTerminal env pieces_info (node_friendly_king board)
          (node_enemy_king board) (node_enemy_attacks env pieces_info board)
          (node_team_bitboards env board) board m = false) →
      gen_best_move env opening_heatmap pieces_info master_team search_depth
        current_depth init_value parent_value board = none) := by
  have hne : ¬ current_depth = search_depth := by omega
  have hfe : search_depth - current_depth = (search_depth - (current_depth + 1)) + 1 := by
    omega
  constructor
  · intro mm hloop hex
    obtain ⟨h1, h2⟩ := gen_loop_initialized env _ master_team current_depth
      init_value parent_value pieces_info (node_friendly_king board)
      (node_enemy_king board) (node_enemy_attacks env pieces_info board)
      (node_team_bitboards env board) board
      (node_moves env opening_heatmap pieces_info board) ⟨none, none⟩ none mm
      hloop (Or.inr hex)
    obtain ⟨mx, hmx⟩ := Option.isSome_iff_exists.1 h1
    obtain ⟨mv, hmv⟩ := Option.isSome_iff_exists.1 h2
    refine ⟨mx, mv, hmx, hmv, ?_⟩
    rw [gen_best_move, gen_best_move_aux.eq_def, if_neg hne, hfe]
    simp only []
    rw [hloop]
    simp only []
    cases master_team with
    | true => rw [if_pos rfl, if_pos rfl, hmx]
    | false =>
      rw [if_neg (by decide : ¬ (false = true)),
        if_neg (by decide : ¬ (false = true)), hmv]
  · intro hall
    rw [gen_best_move, gen_best_move_aux.eq_def, if_neg hne, hfe]
    simp only []
    rw [gen_loop_all_invalid env _ master_team current_depth init_value
      parent_value pieces_info (node_friendly_king board) (node_enemy_king board)
      (node_enemy_attacks env pieces_info board) (node_team_bitboards env board)
      board (node_moves env opening_heatmap pieces_info board) ⟨none, none⟩ none
      hall]
    cases master_team <;> rfl

unseal List.merge List.mergeSort in
/-- Witness for C2: a depth-1 master search over a one-candidate board whose
turn application reports a win returns that candidate scored 127, and the same
search with every candidate invalid panics (returns `none`). -/
theorem gen_best_move_result_spec_witness :
    gen_best_move env_win_w heat_w pieces_w true 1 0 0 none board_w =
      some ⟨⟨0, 0⟩, 1, 127, 0⟩ ∧
    gen_best_move env_inv_w heat_w pieces_w true 1 0 0 none board_w = none := by
  constructor
  · obtain ⟨mx, mv, hmx, hmv, hres⟩ :=
      (gen_best_move_result_spec env_win_w heat_w pieces_w true 1 0 0 none
        board_w (by decide)).1 ⟨some ⟨⟨0, 0⟩, 1, 127, 0⟩, some 127⟩ (by decide)
        ⟨⟨⟨0, 0⟩, 1, 3, 0⟩, by decide, by decide⟩
    rcases Option.some.inj hmx with rfl
    simpa using hres
  · exact (gen_best_move_result_spec env_inv_w heat_w pieces_w true 1 0 0 none
      board_w (by decide)).2 (by decide)
